import Mathlib

/-!
Verification of the TorchMD graph network (src/torchmdnet/models/torchmd_gn.py).

The forward computation is embedded over an arbitrary linear ordered field K
(instantiated at ℚ in concrete witnesses; the torch implementation computes in
floating point, idealised here as exact field arithmetic).  Components imported
from torchmdnet.models.utils (CosineCutoff, the radial-basis families, the
activation classes, NeighborEmbedding) are not part of src/ and are therefore
carried as abstract function fields of the model, or modelled from the spec
where a claim needs their structure.  torch tensors indexed by atoms become
functions from Fin n; scatter-sums become Finset/List sums.
-/

namespace TorchMDGN

/-- A linear layer with bias: torch nn.Linear.  The weight matrix has shape
(out, in) and the layer computes W x + b. -/
def linearMap {a b : ℕ} {K : Type} [LinearOrderedField K]
    (W : Matrix (Fin a) (Fin b) K) (bias : Fin a → K) (x : Fin b → K) : Fin a → K :=
  W.mulVec x + bias

/-- The learned parameters of one InteractionBlock
(torchmd_gn.py lines 207-236): the two linear layers of the filter network
self.mlp (Linear(num_rbf, num_filters), activation, Linear(num_filters,
num_filters)), the two linear layers of the owned CFConv (lin1 without bias,
lin2 with bias), and the mixing layer self.lin. -/
structure InteractionParams (H F R : ℕ) (K : Type) [LinearOrderedField K] where
  mlpW1 : Matrix (Fin F) (Fin R) K
  mlpB1 : Fin F → K
  mlpW2 : Matrix (Fin F) (Fin F) K
  mlpB2 : Fin F → K
  convLin1W : Matrix (Fin F) (Fin H) K
  convLin2W : Matrix (Fin H) (Fin F) K
  convLin2B : Fin H → K
  linW : Matrix (Fin H) (Fin H) K
  linB : Fin H → K

variable {K : Type} [LinearOrderedField K]

/-- The filter-generating network self.mlp of an InteractionBlock (lines
211-215): Linear, pointwise activation, Linear. -/
def filterNet {H F R : ℕ} (p : InteractionParams H F R K) (act : K → K)
    (attr : Fin R → K) : Fin F → K :=
  linearMap p.mlpW2 p.mlpB2 (fun j => act (linearMap p.mlpW1 p.mlpB1 attr j))

/-- CFConv.forward together with CFConv.message (lines 255-265).  Edges are
pairs (source j, target i) following the torch_geometric convention
row, col = edge_index with messages x_j read at the source and aggregated
(aggr = add) at the target.  For each edge, C = cutoff(edge_weight),
W = net(edge_attr) * C; the input features pass through the bias-free lin1;
the message is the elementwise product; aggregated sums pass through lin2. -/
def cfconv {n H F R : ℕ} (p : InteractionParams H F R K) (act cutoffFn : K → K)
    (x : Fin n → Fin H → K) (edges : Finset (Fin n × Fin n))
    (wt : Fin n × Fin n → K) (attr : Fin n × Fin n → Fin R → K) :
    Fin n → Fin H → K :=
  let W : Fin n × Fin n → Fin F → K :=
    fun e j => filterNet p act (attr e) j * cutoffFn (wt e)
  let xp : Fin n → Fin F → K := fun i => p.convLin1W.mulVec (x i)
  fun i => linearMap p.convLin2W p.convLin2B
    (∑ e in edges.filter (fun e => e.2 = i), fun j => xp e.1 j * W e j)

/-- InteractionBlock.forward (lines 232-236): CFConv, pointwise activation,
mixing linear layer. -/
def interactionBlock {n H F R : ℕ} (p : InteractionParams H F R K)
    (act cutoffFn : K → K) (x : Fin n → Fin H → K)
    (edges : Finset (Fin n × Fin n)) (wt : Fin n × Fin n → K)
    (attr : Fin n × Fin n → Fin R → K) : Fin n → Fin H → K :=
  fun i => linearMap p.linW p.linB
    (fun c => act (cfconv p act cutoffFn x edges wt attr i c))

/-! Data model of the full network TorchMD_GN (lines 12-204). -/

/-- All state of a constructed TorchMD_GN model (lines 63-122).  The
components imported from torchmdnet.models.utils are not in src/ and appear as
abstract function fields: rbfFn models the chosen distance_expansion, cutoffFn
models CosineCutoff, act models the chosen activation class, neMsg and
neCombine model NeighborEmbedding (see neighborEmbed below).  sqrtFn models
the square root used by torch norm (instantiated with the exact square root
over ℝ); mass models the ase atomic_masses buffer (line 93). -/
structure GNModel (H F R : ℕ) (K : Type) [LinearOrderedField K] where
  cutoffLower : K
  cutoffUpper : K
  readout : String
  dipole : Bool
  mean : Option K
  std : Option K
  atomref : Option (ℕ → K)
  derivative : Bool
  atom_filter : ℤ
  embedding : ℕ → Fin H → K
  rbfFn : K → Fin R → K
  cutoffFn : K → K
  act : K → K
  sqrtFn : K → K
  mass : ℕ → K
  useNeighborEmb : Bool
  neMsg : (Fin H → K) → ℕ → (Fin R → K) → K → Fin H → K
  neCombine : (Fin H → K) → (Fin H → K) → Fin H → K
  blocks : List (InteractionParams H F R K)
  lin1W : Matrix (Fin (H / 2)) (Fin H) K
  lin1B : Fin (H / 2) → K
  lin2W : Fin (H / 2) → K
  lin2B : K

/-- Squared Euclidean distance between two 3-vectors. -/
def distSq (p q : Fin 3 → K) : K := ∑ c, (p c - q c) ^ 2

/-- radius_graph(pos, r, batch) (line 144, torch_geometric/torch_cluster,
an external spatial-query primitive per the spec): all ordered pairs of
distinct atoms of the same molecule within distance r of each other; the
kernel compares squared distances, both directions are present, self-loops
are excluded. -/
def radiusGraphEdges {n : ℕ} (pos : Fin n → Fin 3 → K) (batch : Fin n → ℕ)
    (r : K) : Finset (Fin n × Fin n) :=
  Finset.univ.filter (fun e =>
    e.1 ≠ e.2 ∧ batch e.1 = batch e.2 ∧ distSq (pos e.1) (pos e.2) ≤ r ^ 2)

/-- Modelled from the spec: NeighborEmbedding (torchmdnet.models.utils, not
in src/) is one round of message passing that folds neighborhood
distance/identity information into the initial features: a per-edge message
computed from the sender features, the sender atomic number, the radial
features and the distance of the edge, summed at the receiver and combined
with the receiver features (spec section 4.4).  neMsg and neCombine are the
abstract learned parts. -/
def neighborEmbed {H F R n : ℕ} (M : GNModel H F R K) (z : Fin n → ℕ)
    (h : Fin n → Fin H → K) (edges : Finset (Fin n × Fin n))
    (wt : Fin n × Fin n → K) (attr : Fin n × Fin n → Fin R → K) :
    Fin n → Fin H → K :=
  fun i => M.neCombine (h i)
    (∑ e in edges.filter (fun e => e.2 = i),
      M.neMsg (h e.1) (z e.1) (attr e) (wt e))

/-- Hidden state after the embedding (line 142), the optional neighbor
embedding (lines 149-150) and the residual interaction stack
(lines 152-153). -/
def hiddenFinal {H F R n : ℕ} (M : GNModel H F R K) (z : Fin n → ℕ)
    (edges : Finset (Fin n × Fin n)) (wt : Fin n × Fin n → K)
    (attr : Fin n × Fin n → Fin R → K) : Fin n → Fin H → K :=
  M.blocks.foldl
    (fun h p => fun i => h i + interactionBlock p M.act M.cutoffFn h edges wt attr i)
    (if M.useNeighborEmb then
      neighborEmbed M z (fun i => M.embedding (z i)) edges wt attr
    else fun i => M.embedding (z i))

/-- The atom filter (lines 155-160): indices of the atoms kept for the output
stage, namely those with atomic number strictly above atom_filter. -/
def survivors {H F R n : ℕ} (M : GNModel H F R K) (z : Fin n → ℕ) :
    List (Fin n) :=
  (List.finRange n).filter (fun i => M.atom_filter < (z i : ℤ))

/-- The scalar head (lines 162-165): lin1, activation, lin2 down to one
scalar per atom. -/
def headScalar {H F R : ℕ} (M : GNModel H F R K) (hv : Fin H → K) : K :=
  M.lin2B + ∑ j, M.lin2W j * M.act (linearMap M.lin1W M.lin1B hv j)

/-- Center of mass of molecule m (lines 168-170): scatter(mass * pos, batch)
divided elementwise by scatter(mass, batch), both over the filtered atoms. -/
def comCenter {H F R n : ℕ} (M : GNModel H F R K) (z : Fin n → ℕ)
    (pos : Fin n → Fin 3 → K) (batch : Fin n → ℕ) (m : ℕ) : Fin 3 → K :=
  fun c =>
    (((survivors M z).filter (fun i => batch i = m)).map
        (fun i => M.mass (z i) * pos i c)).sum /
    (((survivors M z).filter (fun i => batch i = m)).map
        (fun i => M.mass (z i))).sum

/-- The rescaling step (lines 173-174): h * std + mean, applied only outside
dipole mode and only when both mean and std are configured. -/
def rescaled {H F R : ℕ} (M : GNModel H F R K) (s : K) : K :=
  match M.dipole, M.mean, M.std with
  | false, some mu, some sd => s * sd + mu
  | _, _, _ => s

/-- The reference correction (lines 176-177): add atomref(z), applied only
outside dipole mode and only when an atomref table is configured. -/
def withAtomref {H F R : ℕ} (M : GNModel H F R K) (zi : ℕ) (s : K) : K :=
  match M.dipole, M.atomref with
  | false, some ref => s + ref zi
  | _, _ => s

/-- Per-atom scalar entering the readout in non-dipole mode. -/
def atomScalar {H F R n : ℕ} (M : GNModel H F R K) (z : Fin n → ℕ)
    (hF : Fin n → Fin H → K) (i : Fin n) : K :=
  withAtomref M (z i) (rescaled M (headScalar M (hF i)))

/-- Per-atom 3-vector entering the readout in dipole mode (line 171): the
head scalar times the displacement from the molecule center of mass. -/
def dipoleVec {H F R n : ℕ} (M : GNModel H F R K) (z : Fin n → ℕ)
    (pos : Fin n → Fin 3 → K) (batch : Fin n → ℕ) (hF : Fin n → Fin H → K)
    (i : Fin n) : Fin 3 → K :=
  fun c => headScalar M (hF i) * (pos i c - comCenter M z pos batch (batch i) c)

/-- Output length of the scatter at line 179: torch_scatter defaults dim_size
to index.max() + 1 over the filtered batch vector (index.max() raises on an
empty tensor; that error case is modelled as length 0). -/
def outDim {H F R n : ℕ} (M : GNModel H F R K) (z : Fin n → ℕ)
    (batch : Fin n → ℕ) : ℕ :=
  if survivors M z = [] then 0
  else ((survivors M z).map batch).foldr max 0 + 1

/-- One group of the segment reduction scatter(..., reduce=readout)
(line 179): the values of the filtered atoms of molecule m, summed, or summed
and divided by the group size for reduce = mean. -/
def reduceGroup {n : ℕ} (readout : String) (surv : List (Fin n))
    (batch : Fin n → ℕ) (val : Fin n → K) (m : ℕ) : K :=
  if readout = "mean" then
    ((surv.filter (fun i => batch i = m)).map val).sum /
      ((surv.filter (fun i => batch i = m)).length : K)
  else ((surv.filter (fun i => batch i = m)).map val).sum

/-- The forward pass downstream of the neighbor graph (lines 142-182), taking
the edge set and the per-edge distances as inputs.  Positions are consumed
only by the dipole branch; everything else reaches them only through the
distances. -/
def forwardFromGraph {H F R n : ℕ} (M : GNModel H F R K) (z : Fin n → ℕ)
    (batch : Fin n → ℕ) (edges : Finset (Fin n × Fin n))
    (wt : Fin n × Fin n → K) (pos : Fin n → Fin 3 → K) : List K :=
  let attr := fun e => M.rbfFn (wt e)
  let hF := hiddenFinal M z edges wt attr
  let surv := survivors M z
  let d := outDim M z batch
  if M.dipole then
    (List.range d).map (fun m =>
      M.sqrtFn (∑ c : Fin 3,
        reduceGroup M.readout surv batch (fun i => dipoleVec M z pos batch hF i c) m ^ 2))
  else
    (List.range d).map (fun m => reduceGroup M.readout surv batch (atomScalar M z hF) m)

/-- TorchMD_GN.forward, scalar path (lines 135-182): an omitted molecule_id
assigns every atom to molecule 0 (line 137); the neighbor graph and the edge
distances are built from the input positions (lines 144-147); the rest is
forwardFromGraph. -/
def forward {H F R n : ℕ} (M : GNModel H F R K) (z : Fin n → ℕ)
    (pos : Fin n → Fin 3 → K) (batchOpt : Option (Fin n → ℕ)) : List K :=
  forwardFromGraph M z (batchOpt.getD fun _ => 0)
    (radiusGraphEdges pos (batchOpt.getD fun _ => 0) M.cutoffUpper)
    (fun e => M.sqrtFn (distSq (pos e.1) (pos e.2))) pos

/-- Autograd provenance through TorchMD_GN.forward: each binding mirrors the
tensor created at the cited source line and records whether the re-indexed
position tensor pos = pos[atom_mask] of line 159 is among its autograd
ancestors.  Boolean-mask indexing creates a fresh tensor downstream of the
original positions, so the graph built from the original positions at lines
144-147 does not pass through it; only the dipole branch (line 171) consumes
it.  torch.autograd.grad(out, pos) at line 185 succeeds exactly when the
result is true. -/
def gradTargetReachable (dipole useNE : Bool) : Bool :=
  let posInput := false
  let hEmb := false
  let edgeWeight := posInput
  let edgeAttr := edgeWeight
  let hNe := if useNE then hEmb || edgeWeight || edgeAttr else hEmb
  let hInter := hNe || edgeWeight || edgeAttr
  let posFiltered := true
  let hMasked := hInter
  let hHead := hMasked
  let com := posFiltered
  let hDip := if dipole then hHead || posFiltered || com else hHead
  let hScaled := hDip
  let hRef := hScaled
  let outScatter := hRef
  outScatter

/-- The full forward call (lines 135-189).  The boolean records whether a
forces tensor is returned alongside the scalars (its numerical value is the
autograd output and is not modelled); in derivative mode the gradient call of
line 185 raises when its target tensor is not an ancestor of the output. -/
def forwardCall {H F R n : ℕ} (M : GNModel H F R K) (z : Fin n → ℕ)
    (pos : Fin n → Fin 3 → K) (batchOpt : Option (Fin n → ℕ)) :
    Except String (List K × Bool) :=
  if M.derivative then
    if gradTargetReachable M.dipole M.useNeighborEmb then
      .ok (forward M z pos batchOpt, true)
    else
      .error "One of the differentiated Tensors appears to not have been used in the graph"
  else .ok (forward M z pos batchOpt, false)

/-! Construction-time validation (lines 63-122). -/

/-- The construction failures of TorchMD_GN.__init__: the bare readout
assertion of line 70 (an AssertionError without a message), the rbf and
activation assertions of lines 71-74 whose messages interpolate the list of
registered keys, and the invalid cutoff window (modelled from the spec, see
mkModel). -/
inductive ConfigError where
  | readoutInvalid : ConfigError
  | rbfUnknown (given : String) (valid : List String) : ConfigError
  | actUnknown (given : String) (valid : List String) : ConfigError
  | cutoffWindowInvalid : ConfigError
deriving DecidableEq

/-- Whether a construction error enumerates the valid alternatives, the
property the spec promises of configuration errors: the rbf and activation
messages carry the registered keys (Choose from ...), the readout assertion
carries no message at all. -/
def ConfigError.enumeratesAlternatives : ConfigError → Bool
  | .readoutInvalid => false
  | .rbfUnknown _ _ => true
  | .actUnknown _ _ => true
  | .cutoffWindowInvalid => true

/-- TorchMD_GN.__init__ (lines 63-122): the three assertions in source order,
then the field assignments, with readout forced to add when dipole is set
(line 86).  rbfKeys and actKeys stand for the key sets of rbf_class_mapping
and act_class_mapping (torchmdnet.models.utils, not in src/).  The cutoff
window check is modelled from the spec: construction of the cutoff envelope
with cutoff_upper not above cutoff_lower is a configuration error raised at
construction time (spec sections 6 and 7; CosineCutoff itself is not in
src/).  All remaining state is taken from the template argument t. -/
def mkModel {H F R : ℕ} (t : GNModel H F R K) (readout rbfType activation : String)
    (rbfKeys actKeys : List String) (dipole : Bool) (cutoffLow cutoffUp : K) :
    Except ConfigError (GNModel H F R K) :=
  if readout ∈ ["add", "sum", "mean"] then
    if rbfType ∈ rbfKeys then
      if activation ∈ actKeys then
        if cutoffLow < cutoffUp then
          .ok { t with readout := if dipole then "add" else readout,
                       dipole := dipole,
                       cutoffLower := cutoffLow, cutoffUpper := cutoffUp }
        else .error .cutoffWindowInvalid
      else .error (.actUnknown activation actKeys)
    else .error (.rbfUnknown rbfType rbfKeys)
  else .error .readoutInvalid

/-! Parameter initialization (lines 124-133, 223-230, 250-253). -/

/-- Fresh Xavier-uniform draws consumed by one
InteractionBlock.reset_parameters call: the two filter-network weights, the
two convolution weights and the mixing-layer weight. -/
structure FreshDraws (H F R : ℕ) (K : Type) [LinearOrderedField K] where
  w1 : Matrix (Fin F) (Fin R) K
  w2 : Matrix (Fin F) (Fin F) K
  wc1 : Matrix (Fin F) (Fin H) K
  wc2 : Matrix (Fin H) (Fin F) K
  wl : Matrix (Fin H) (Fin H) K

/-- InteractionBlock.reset_parameters (lines 223-230) including
CFConv.reset_parameters (lines 250-253): Xavier draws replace the five weight
matrices; the biases of mlp[0], conv.lin2 and lin are filled with zero.
Line 227 fills mlp[0].bias a second time, so the bias of the second
filter-network layer mlp[2] is never reassigned and keeps its previous
value. -/
def resetInteraction {H F R : ℕ} (p : InteractionParams H F R K)
    (f : FreshDraws H F R K) : InteractionParams H F R K :=
  { mlpW1 := f.w1, mlpB1 := 0, mlpW2 := f.w2, mlpB2 := p.mlpB2,
    convLin1W := f.wc1, convLin2W := f.wc2, convLin2B := 0,
    linW := f.wl, linB := 0 }

/-- Fresh draws consumed by TorchMD_GN.reset_parameters for the embedding
table and the two output-head weights. -/
structure HeadDraws (H : ℕ) (K : Type) [LinearOrderedField K] where
  emb : ℕ → Fin H → K
  l1 : Matrix (Fin (H / 2)) (Fin H) K
  l2 : Fin (H / 2) → K

/-- TorchMD_GN.reset_parameters (lines 124-133): reset the embedding, reset
every interaction block, Xavier the two head weights and zero the two head
biases (the atomref table is restored from initial_atomref, hence
unchanged here). -/
def resetModel {H F R : ℕ} (M : GNModel H F R K) (hd : HeadDraws H K)
    (bf : ℕ → FreshDraws H F R K) : GNModel H F R K :=
  { M with embedding := hd.emb,
           blocks := List.mapIdx (fun k p => resetInteraction p (bf k)) M.blocks,
           lin1W := hd.l1, lin1B := 0, lin2W := hd.l2, lin2B := 0 }

/-- A concrete interaction-block parameter set over ℚ for witnesses: all
weights zero except a constant 5 bias on the convolution output layer. -/
def sampleParams : InteractionParams 1 1 1 ℚ :=
  ⟨0, 0, 0, 0, 0, 0, fun _ => 5, 0, 0⟩

/-- The set of atoms of molecule m that survive the atom filter: atomic
number strictly above atom_filter and molecule id m. -/
def keptAtoms {H F R n : ℕ} (M : GNModel H F R K) (z : Fin n → ℕ)
    (batch : Fin n → ℕ) (m : ℕ) : Finset (Fin n) :=
  Finset.univ.filter (fun i => M.atom_filter < (z i : ℤ) ∧ batch i = m)

/-- Spec-side count for claim C8: the number of distinct molecule ids present
among the atoms. -/
def distinctMoleculeIds {n : ℕ} (batch : Fin n → ℕ) : ℕ :=
  ((List.finRange n).map batch).dedup.length

/-- A small concrete model over ℚ for witnesses: one hidden channel (so the
integer-divided head width H / 2 is zero and the head scalar is the lin2
bias, zero), identity activation and square root, constant mass, no blocks.
The behavioural flags and options are the arguments. -/
def qModel (readout : String) (dipole derivative useNE : Bool)
    (mean std : Option ℚ) (aref : Option (ℕ → ℚ)) (af : ℤ) :
    GNModel 1 1 1 ℚ :=
  { cutoffLower := 0, cutoffUpper := 5, readout := readout, dipole := dipole,
    mean := mean, std := std, atomref := aref, derivative := derivative,
    atom_filter := af, embedding := fun _ _ => 1, rbfFn := fun _ _ => 1,
    cutoffFn := fun _ => 1, act := id, sqrtFn := id, mass := fun _ => 1,
    useNeighborEmb := useNE, neMsg := fun h _ _ _ => h,
    neCombine := fun a b => a + b, blocks := [],
    lin1W := 0, lin1B := 0, lin2W := 0, lin2B := 0 }

/-- The model obtained by constructing qModel arguments with dipole set and
readout mean; the constructor stores readout add. -/
def qModelDipole : GNModel 1 1 1 ℚ :=
  { qModel "mean" false false false none none none 0 with
    readout := "add", dipole := true, cutoffLower := 0, cutoffUpper := 5 }

/-- One atom with atomic number 1 for witnesses. -/
def z1 : Fin 1 → ℕ := fun _ => 1

/-- One atom at the origin for witnesses. -/
def pos1 : Fin 1 → Fin 3 → ℚ := fun _ _ => 0

/-- A concrete model over ℝ for the force-related witnesses, in the
configuration where the gradient call of line 185 succeeds: dipole and
derivative both set, one hidden channel, identity activation and square
root, no blocks. -/
noncomputable def rModel : GNModel 1 1 1 ℝ :=
  { cutoffLower := 0, cutoffUpper := 5, readout := "add", dipole := true,
    mean := none, std := none, atomref := none, derivative := true,
    atom_filter := 0, embedding := fun _ _ => 1, rbfFn := fun _ _ => 1,
    cutoffFn := fun _ => 1, act := id, sqrtFn := id, mass := fun _ => 1,
    useNeighborEmb := false, neMsg := fun h _ _ _ => h,
    neCombine := fun a b => a + b, blocks := [],
    lin1W := 0, lin1B := 0, lin2W := 0, lin2B := 0 }

/-- One atom with atomic number 0 (dropped by the default filter). -/
def rz0 : Fin 1 → ℕ := fun _ => 0

/-- One atom at the origin over ℝ. -/
noncomputable def rpos0 : Fin 1 → Fin 3 → ℝ := fun _ _ => 0

/-- The coordinate relabeling p ↦ (fun b => p (σ.symm b)) of position tensors
as a continuous linear equivalence, used to transport gradients along an atom
relabeling. -/
noncomputable def reindexCLE {n : ℕ} (σ : Equiv.Perm (Fin n)) :
    (Fin n → Fin 3 → ℝ) ≃L[ℝ] (Fin n → Fin 3 → ℝ) :=
  (LinearEquiv.piCongrLeft' ℝ (fun _ : Fin n => Fin 3 → ℝ) σ).toContinuousLinearEquiv

/-- The position-tensor direction that moves coordinate c of atom i and
nothing else. -/
noncomputable def coordDir {n : ℕ} (i : Fin n) (c : Fin 3) :
    Fin n → Fin 3 → ℝ :=
  Pi.single i (Pi.single c 1)

/-- Modelled from the spec: the derivative head (spec section 4.8) delegates
to the external reverse-mode AD engine, assumed available and correct, so the
force it returns on a kept atom is the negated mathematical gradient of the
summed per-molecule scalar with respect to the re-indexed position tensor of
line 159.  That tensor enters the computation graph exactly where the pos
argument of forwardFromGraph is consumed (the dipole branch, line 171; the
neighbor graph of lines 144-147 was built from the original positions, see
gradTargetReachable), so the gradient with respect to its row for atom i is
the Frechet derivative of the summed output in the direction of coordinate
(i, c) of that argument. -/
noncomputable def atomForce {H F R n : ℕ} (M : GNModel H F R ℝ)
    (z batch : Fin n → ℕ) (edges : Finset (Fin n × Fin n))
    (wt : Fin n × Fin n → ℝ) (pos : Fin n → Fin 3 → ℝ) (i : Fin n) :
    Fin 3 → ℝ :=
  fun c =>
    -(fderiv ℝ (fun p : Fin n → Fin 3 → ℝ =>
        (forwardFromGraph M z batch edges wt p).sum) pos)
      (coordDir i c)

/-- The per-atom force tensor dy returned by lines 184-187 in the
configuration where the gradient call succeeds (derivative mode with dipole
set, see gradTargetReachable and forwardCall): one 3-vector per atom
surviving the filter, in original atom order. -/
noncomputable def returnedForces {H F R n : ℕ} (M : GNModel H F R ℝ)
    (z : Fin n → ℕ) (pos : Fin n → Fin 3 → ℝ)
    (batchOpt : Option (Fin n → ℕ)) : List (Fin 3 → ℝ) :=
  (survivors M z).map
    (atomForce M z (batchOpt.getD fun _ => 0)
      (radiusGraphEdges pos (batchOpt.getD fun _ => 0) M.cutoffUpper)
      (fun e => M.sqrtFn (distSq (pos e.1) (pos e.2))) pos)

end TorchMDGN

namespace TorchMDGN

/-- Claim C1 restated over the embedding: the per-edge filter is the two-layer
feed-forward transform of the radial features times the cutoff envelope at the
edge distance; the message on an edge is the elementwise product of the
bias-free projection of the sender features with that filter; messages are
summed at each receiver (zero incoming edges give the zero aggregate); and the
aggregate passes through the biased output projection. -/
theorem cfconv_computes_spec {n H F R : ℕ} {K : Type} [LinearOrderedField K]
    (p : InteractionParams H F R K) (act cutoffFn : K → K)
    (x : Fin n → Fin H → K) (edges : Finset (Fin n × Fin n))
    (wt : Fin n × Fin n → K) (attr : Fin n × Fin n → Fin R → K) (i : Fin n) :
    (cfconv p act cutoffFn x edges wt attr i =
      linearMap p.convLin2W p.convLin2B
        (∑ e in edges.filter (fun e => e.2 = i),
          fun j => p.convLin1W.mulVec (x e.1) j *
            (filterNet p act (attr e) j * cutoffFn (wt e)))) ∧
    (edges.filter (fun e => e.2 = i) = ∅ →
      cfconv p act cutoffFn x edges wt attr i = fun c => p.convLin2B c) := by
  constructor
  · rfl
  · intro hempty
    show linearMap p.convLin2W p.convLin2B _ = _
    rw [hempty]
    funext c
    simp [linearMap, Matrix.mulVec_zero, Finset.sum_empty]

/-- Witness for C1 at a concrete instance over ℚ with a single isolated atom:
the hypothesis that the atom has no incoming edges is discharged by decide,
and the convolution output at that atom is the bias vector. -/
theorem cfconv_computes_spec_witness :
    cfconv sampleParams id id (fun _ _ => 3) (∅ : Finset (Fin 1 × Fin 1))
      (fun _ => 0) (fun _ _ => 0) 0 = fun _ => 5 := by
  have h := cfconv_computes_spec sampleParams id id (fun _ _ => 3)
    (∅ : Finset (Fin 1 × Fin 1)) (fun _ => 0) (fun _ _ => 0) 0
  exact h.2 (by decide)

/-- Claim C2, against the code: with derivative set and dipole unset, the
gradient target of line 185 (the re-indexed position tensor of line 159) is
not an ancestor of the output in the autograd graph, so the forward call
raises instead of returning the (scalar, forces) pair the claim and the
docstring of the class promise. -/
theorem derivative_forward_raises {H F R n : ℕ} {K : Type} [LinearOrderedField K]
    (M : GNModel H F R K) (z : Fin n → ℕ) (pos : Fin n → Fin 3 → K)
    (b : Option (Fin n → ℕ)) (hderiv : M.derivative = true)
    (hdip : M.dipole = false) :
    forwardCall M z pos b =
      .error "One of the differentiated Tensors appears to not have been used in the graph" := by
  unfold forwardCall gradTargetReachable
  rw [hderiv, hdip]
  cases M.useNeighborEmb <;> simp

/-- Witness for C2 at a concrete model over ℚ with derivative set. -/
theorem derivative_forward_raises_witness :
    forwardCall (qModel "add" false true false none none none 0)
      (fun _ : Fin 1 => 1) (fun _ _ => 0) none =
      .error "One of the differentiated Tensors appears to not have been used in the graph" :=
  derivative_forward_raises (qModel "add" false true false none none none 0)
    (fun _ : Fin 1 => 1) (fun _ _ => 0) none rfl rfl

/-- Claim C5: under dipole mode the constructor stores readout add whatever
valid readout was passed (line 86), and the forward output is, per molecule,
the square root of the summed squares of the plain (unweighted, never
averaged) sums of the per-atom 3-vectors (lines 179-182). -/
theorem dipole_forces_sum_readout {H F R : ℕ} {K : Type} [LinearOrderedField K]
    (t : GNModel H F R K) (readout rbfType activation : String)
    (rbfKeys actKeys : List String) (cl cu : K) (M : GNModel H F R K)
    (hok : mkModel t readout rbfType activation rbfKeys actKeys true cl cu =
      Except.ok M)
    {n : ℕ} (z : Fin n → ℕ) (pos : Fin n → Fin 3 → K)
    (b : Option (Fin n → ℕ)) :
    M.readout = "add" ∧
    forward M z pos b =
      (List.range (outDim M z (b.getD fun _ => 0))).map (fun m =>
        M.sqrtFn (∑ c : Fin 3,
          (((survivors M z).filter (fun i => (b.getD fun _ => 0) i = m)).map
            (fun i => dipoleVec M z pos (b.getD fun _ => 0)
              (hiddenFinal M z
                (radiusGraphEdges pos (b.getD fun _ => 0) M.cutoffUpper)
                (fun e => M.sqrtFn (distSq (pos e.1) (pos e.2)))
                (fun e => M.rbfFn (M.sqrtFn (distSq (pos e.1) (pos e.2)))))
              i c)).sum ^ 2)) := by
  have hM : M.readout = "add" ∧ M.dipole = true := by
    unfold mkModel at hok
    by_cases h1 : readout ∈ (["add", "sum", "mean"] : List String)
    · rw [if_pos h1] at hok
      by_cases h2 : rbfType ∈ rbfKeys
      · rw [if_pos h2] at hok
        by_cases h3 : activation ∈ actKeys
        · rw [if_pos h3] at hok
          by_cases h4 : cl < cu
          · rw [if_pos h4] at hok
            cases hok
            exact ⟨rfl, rfl⟩
          · rw [if_neg h4] at hok; exact Except.noConfusion hok
        · rw [if_neg h3] at hok; exact Except.noConfusion hok
      · rw [if_neg h2] at hok; exact Except.noConfusion hok
    · rw [if_neg h1] at hok; exact Except.noConfusion hok
  obtain ⟨hr, hd⟩ := hM
  refine ⟨hr, ?_⟩
  unfold forward forwardFromGraph reduceGroup
  rw [hd, hr]
  simp

/-- Witness for C5: a concrete construction over ℚ that passes readout mean
yet stores readout add and takes plain sums. -/
theorem dipole_forces_sum_readout_witness :
    qModelDipole.readout = "add" ∧
    forward qModelDipole z1 pos1 none =
      (List.range (outDim qModelDipole z1
          ((none : Option (Fin 1 → ℕ)).getD fun _ => 0))).map (fun m =>
        qModelDipole.sqrtFn (∑ c : Fin 3,
          (((survivors qModelDipole z1).filter
              (fun i => ((none : Option (Fin 1 → ℕ)).getD (fun _ => 0)) i = m)).map
            (fun i => dipoleVec qModelDipole z1 pos1
              ((none : Option (Fin 1 → ℕ)).getD fun _ => 0)
              (hiddenFinal qModelDipole z1
                (radiusGraphEdges pos1
                  ((none : Option (Fin 1 → ℕ)).getD fun _ => 0)
                  qModelDipole.cutoffUpper)
                (fun e => qModelDipole.sqrtFn (distSq (pos1 e.1) (pos1 e.2)))
                (fun e => qModelDipole.rbfFn
                  (qModelDipole.sqrtFn (distSq (pos1 e.1) (pos1 e.2)))))
              i c)).sum ^ 2)) :=
  dipole_forces_sum_readout (qModel "mean" false false false none none none 0)
    "mean" "expnorm" "silu" ["expnorm"] ["silu"] 0 5 qModelDipole
    (by unfold mkModel
        rw [if_pos (by decide), if_pos (by decide), if_pos (by decide),
          if_pos (by norm_num)]
        rfl)
    z1 pos1 none

/-- Counterexample to claim C7 as stated: an invalid readout value does make
construction fail immediately, but the failure is the bare assertion of line
70, whose error carries no enumeration of the valid alternatives. -/
theorem config_error_counterexample :
    mkModel (K := ℚ) (qModel "add" false false false none none none 0) "avg"
      "expnorm" "silu" ["expnorm"] ["silu"] false 0 5 =
      Except.error ConfigError.readoutInvalid ∧
    ConfigError.enumeratesAlternatives ConfigError.readoutInvalid = false := by
  refine ⟨?_, rfl⟩
  unfold mkModel
  rw [if_neg (by decide)]

/-- Claim C7 as amended: every invalid configuration value makes construction
fail immediately; the unknown rbf and activation errors enumerate the
registered identifiers, and (modelled from the spec) a cutoff window with
cutoff_upper not above cutoff_lower is rejected, but the invalid-readout
failure is a bare assertion that enumerates nothing. -/
theorem config_errors_fail_fast {H F R : ℕ} {K : Type} [LinearOrderedField K]
    (t : GNModel H F R K) (readout rbfType activation : String)
    (rbfKeys actKeys : List String) (dipole : Bool) (cl cu : K) :
    (readout ∉ (["add", "sum", "mean"] : List String) →
      mkModel t readout rbfType activation rbfKeys actKeys dipole cl cu =
        Except.error ConfigError.readoutInvalid ∧
      ConfigError.enumeratesAlternatives ConfigError.readoutInvalid = false) ∧
    (readout ∈ (["add", "sum", "mean"] : List String) → rbfType ∉ rbfKeys →
      mkModel t readout rbfType activation rbfKeys actKeys dipole cl cu =
        Except.error (ConfigError.rbfUnknown rbfType rbfKeys) ∧
      ConfigError.enumeratesAlternatives (ConfigError.rbfUnknown rbfType rbfKeys)
        = true) ∧
    (readout ∈ (["add", "sum", "mean"] : List String) → rbfType ∈ rbfKeys →
      activation ∉ actKeys →
      mkModel t readout rbfType activation rbfKeys actKeys dipole cl cu =
        Except.error (ConfigError.actUnknown activation actKeys) ∧
      ConfigError.enumeratesAlternatives (ConfigError.actUnknown activation actKeys)
        = true) ∧
    (readout ∈ (["add", "sum", "mean"] : List String) → rbfType ∈ rbfKeys →
      activation ∈ actKeys → ¬cl < cu →
      mkModel t readout rbfType activation rbfKeys actKeys dipole cl cu =
        Except.error ConfigError.cutoffWindowInvalid) := by
  refine ⟨?_, ?_, ?_, ?_⟩
  · intro h1
    unfold mkModel
    rw [if_neg h1]
    exact ⟨rfl, rfl⟩
  · intro h1 h2
    unfold mkModel
    rw [if_pos h1, if_neg h2]
    exact ⟨rfl, rfl⟩
  · intro h1 h2 h3
    unfold mkModel
    rw [if_pos h1, if_pos h2, if_neg h3]
    exact ⟨rfl, rfl⟩
  · intro h1 h2 h3 h4
    unfold mkModel
    rw [if_pos h1, if_pos h2, if_pos h3, if_neg h4]

/-- Witness for the amended C7: all four failure kinds at concrete inputs
over ℚ. -/
theorem config_errors_fail_fast_witness :
    (mkModel (K := ℚ) (qModel "add" false false false none none none 0) "avg"
        "expnorm" "silu" ["expnorm"] ["silu"] false 0 5 =
        Except.error ConfigError.readoutInvalid ∧
      ConfigError.enumeratesAlternatives ConfigError.readoutInvalid = false) ∧
    (mkModel (K := ℚ) (qModel "add" false false false none none none 0) "add"
        "bessel" "silu" ["expnorm"] ["silu"] false 0 5 =
        Except.error (ConfigError.rbfUnknown "bessel" ["expnorm"]) ∧
      ConfigError.enumeratesAlternatives
        (ConfigError.rbfUnknown "bessel" ["expnorm"]) = true) ∧
    (mkModel (K := ℚ) (qModel "add" false false false none none none 0) "add"
        "expnorm" "relu" ["expnorm"] ["silu"] false 0 5 =
        Except.error (ConfigError.actUnknown "relu" ["silu"]) ∧
      ConfigError.enumeratesAlternatives
        (ConfigError.actUnknown "relu" ["silu"]) = true) ∧
    (mkModel (K := ℚ) (qModel "add" false false false none none none 0) "add"
        "expnorm" "silu" ["expnorm"] ["silu"] false 5 5 =
        Except.error ConfigError.cutoffWindowInvalid) := by
  refine ⟨?_, ?_, ?_, ?_⟩
  · exact (config_errors_fail_fast (qModel "add" false false false none none none 0)
      "avg" "expnorm" "silu" ["expnorm"] ["silu"] false 0 5).1 (by decide)
  · exact (config_errors_fail_fast (qModel "add" false false false none none none 0)
      "add" "bessel" "silu" ["expnorm"] ["silu"] false 0 5).2.1 (by decide) (by decide)
  · exact (config_errors_fail_fast (qModel "add" false false false none none none 0)
      "add" "expnorm" "relu" ["expnorm"] ["silu"] false 0 5).2.2.1 (by decide)
      (by decide) (by decide)
  · exact (config_errors_fail_fast (qModel "add" false false false none none none 0)
      "add" "expnorm" "silu" ["expnorm"] ["silu"] false 5 5).2.2.2 (by decide)
      (by decide) (by decide) (by norm_num)

/-- Counterexample to claim C8 as stated: with molecule ids 0 and 2 on two
atoms, two distinct ids are present but the returned tensor has length 3
(torch_scatter sizes the output as max id + 1, leaving a zero row for the
absent id 1). -/
theorem scalar_length_counterexample :
    (forward (qModel "add" false false false none none none 0)
        (fun _ : Fin 2 => 1) (fun _ _ => 0) (some ![0, 2])).length ≠
      distinctMoleculeIds (![0, 2] : Fin 2 → ℕ) ∧
    (forward (qModel "add" false false false none none none 0)
        (fun _ : Fin 2 => 1) (fun _ _ => 0) (some ![0, 2])).length = 3 ∧
    distinctMoleculeIds (![0, 2] : Fin 2 → ℕ) = 2 := by
  refine ⟨?_, ?_, ?_⟩ <;> decide

/-- Claim C8 as amended: whenever at least one atom survives the filter, the
returned scalar-per-molecule list has length one more than the maximum
molecule id among the surviving atoms (with every atom assigned to molecule 0
when molecule_id is omitted) — not the number of distinct ids present. -/
theorem scalar_length_max_id {H F R n : ℕ} {K : Type} [LinearOrderedField K]
    (M : GNModel H F R K) (z : Fin n → ℕ) (pos : Fin n → Fin 3 → K)
    (b : Option (Fin n → ℕ)) (hne : survivors M z ≠ []) :
    (forward M z pos b).length =
      ((survivors M z).map (b.getD fun _ => 0)).foldr max 0 + 1 := by
  unfold forward forwardFromGraph
  cases hM : M.dipole <;> simp [outDim, hne, hM]

/-- Witness for the amended C8 at a one-atom system over ℚ. -/
theorem scalar_length_max_id_witness :
    (forward (qModel "add" false false false none none none 0) z1 pos1
        none).length =
      ((survivors (qModel "add" false false false none none none 0) z1).map
        ((none : Option (Fin 1 → ℕ)).getD fun _ => 0)).foldr max 0 + 1 :=
  scalar_length_max_id (qModel "add" false false false none none none 0) z1
    pos1 none (by decide)

/-- Claim C9, against the code: after reset_parameters the biases of mlp[0],
conv.lin2, the mixing layer and the two output-head layers are zero, but line
227 zeroes mlp[0].bias a second time instead of mlp[2].bias, so the bias of
the second filter-network layer keeps its pre-reset value — concretely, a
pre-reset value 7 survives the reset — contradicting the claim that every
bias is exactly zero. -/
theorem reset_skips_second_filter_bias {H F R : ℕ} {K : Type}
    [LinearOrderedField K] (p : InteractionParams H F R K)
    (f : FreshDraws H F R K) (M : GNModel H F R K) (hd : HeadDraws H K)
    (bf : ℕ → FreshDraws H F R K) :
    (resetInteraction p f).mlpB1 = 0 ∧
    (resetInteraction p f).convLin2B = 0 ∧
    (resetInteraction p f).linB = 0 ∧
    (resetModel M hd bf).lin1B = 0 ∧
    (resetModel M hd bf).lin2B = 0 ∧
    (resetInteraction p f).mlpB2 = p.mlpB2 ∧
    (resetInteraction
        (⟨0, 0, 0, fun _ => (7 : ℚ), 0, 0, 0, 0, 0⟩ : InteractionParams 1 1 1 ℚ)
        ⟨0, 0, 0, 0, 0⟩).mlpB2 0 = 7 :=
  ⟨rfl, rfl, rfl, rfl, rfl, rfl, rfl⟩

/-- Claim C10: outside dipole mode, if either of mean and std is missing the
forward output equals the output of the same model with both removed (no
failure, no partial rescaling), and when both are configured the rescaling
step maps a per-atom scalar s to s * std + mean. -/
theorem rescale_iff_both_configured {H F R n : ℕ} {K : Type}
    [LinearOrderedField K] (M : GNModel H F R K) (z : Fin n → ℕ)
    (pos : Fin n → Fin 3 → K) (b : Option (Fin n → ℕ))
    (hdip : M.dipole = false) :
    (M.mean = none ∨ M.std = none →
      forward M z pos b = forward { M with mean := none, std := none } z pos b) ∧
    (∀ mu sd s, M.mean = some mu → M.std = some sd →
      rescaled M s = s * sd + mu) := by
  have key : ∀ (M2 : GNModel H F R K) (s : K), M2.mean = none ∨ M2.std = none →
      rescaled M2 s = s := by
    intro M2 s hns
    unfold rescaled
    rcases hns with h | h
    · rw [h]
      cases hx : M2.dipole <;> rfl
    · rw [h]
      cases hx : M2.dipole
      · cases hy : M2.mean <;> rfl
      · rfl
  constructor
  · intro hns
    have hAS : atomScalar M z = atomScalar { M with mean := none, std := none } z := by
      funext hF i
      unfold atomScalar
      rw [key M _ hns, key _ _ (Or.inl rfl)]
      rfl
    unfold forward forwardFromGraph
    simp only [hAS]
    rfl
  · intro mu sd s hm hs
    unfold rescaled
    rw [hdip, hm, hs]

/-- Sum of a mapped filtered finRange list as a sum over the filtered
finite set. -/
theorem list_sum_map_filter {n : ℕ} {β : Type} [AddCommMonoid β]
    (q : Fin n → Bool) (f : Fin n → β) :
    (((List.finRange n).filter q).map f).sum =
      ∑ i in Finset.univ.filter (fun i => q i = true), f i := by
  have h : ∀ l : List (Fin n),
      ((l.filter q).map f).sum = (l.map (fun i => if q i then f i else 0)).sum := by
    intro l
    induction l with
    | nil => rfl
    | cons a t ih => cases hq : q a <;> simp [List.filter_cons, hq, ih]
  rw [h, ← Fin.sum_univ_def]
  exact (Finset.sum_filter _ _).symm

/-- Length of a filtered finRange list as the cardinality of the filtered
finite set. -/
theorem list_length_filter_card {n : ℕ} (q : Fin n → Bool) :
    ((List.finRange n).filter q).length =
      (Finset.univ.filter (fun i => q i = true)).card := by
  have h := list_sum_map_filter q (fun _ => (1 : ℕ))
  have h2 : ∀ l : List (Fin n), (l.map (fun _ => (1 : ℕ))).sum = l.length := by
    intro l
    induction l with
    | nil => rfl
    | cons a t ih => simp [ih, Nat.add_comm]
  rw [h2] at h
  rw [h]
  exact (Finset.card_eq_sum_ones _).symm

/-- The filtered group of molecule m inside the survivor list is the
keptAtoms set. -/
theorem survivors_group_eq_keptAtoms {H F R n : ℕ} {K : Type}
    [LinearOrderedField K] (M : GNModel H F R K) (z : Fin n → ℕ)
    (batch : Fin n → ℕ) (m : ℕ) {β : Type} [AddCommMonoid β] (f : Fin n → β) :
    ((((survivors M z).filter (fun i => batch i = m)).map f).sum =
      ∑ i in keptAtoms M z batch m, f i) ∧
    (((survivors M z).filter (fun i => batch i = m)).length =
      (keptAtoms M z batch m).card) := by
  have hset : Finset.univ.filter
      (fun i => (decide (batch i = m) && decide (M.atom_filter < (z i : ℤ))) = true)
      = keptAtoms M z batch m := by
    unfold keptAtoms
    apply Finset.filter_congr
    intro i _
    simp [and_comm]
  constructor
  · rw [show (survivors M z).filter (fun i => batch i = m)
        = (List.finRange n).filter
          (fun i => decide (batch i = m) && decide (M.atom_filter < (z i : ℤ)))
      from by unfold survivors; rw [List.filter_filter]]
    rw [list_sum_map_filter, hset]
  · rw [show (survivors M z).filter (fun i => batch i = m)
        = (List.finRange n).filter
          (fun i => decide (batch i = m) && decide (M.atom_filter < (z i : ℤ)))
      from by unfold survivors; rw [List.filter_filter]]
    rw [list_length_filter_card, hset]

/-- The segment reduction over the survivor list in Finset form: for either
readout, only atoms above the filter threshold and of the right molecule
enter. -/
theorem reduceGroup_keptAtoms {H F R n : ℕ} {K : Type} [LinearOrderedField K]
    (M : GNModel H F R K) (z : Fin n → ℕ) (batch : Fin n → ℕ)
    (val : Fin n → K) (m : ℕ) :
    reduceGroup M.readout (survivors M z) batch val m =
      if M.readout = "mean" then
        (∑ i in keptAtoms M z batch m, val i) / ((keptAtoms M z batch m).card : K)
      else ∑ i in keptAtoms M z batch m, val i := by
  unfold reduceGroup
  rw [(survivors_group_eq_keptAtoms M z batch m val).1,
    (survivors_group_eq_keptAtoms M z batch m val).2]

/-- The center of mass of molecule m in Finset form: only kept atoms of
molecule m enter numerator and denominator. -/
theorem comCenter_keptAtoms {H F R n : ℕ} {K : Type} [LinearOrderedField K]
    (M : GNModel H F R K) (z : Fin n → ℕ) (pos : Fin n → Fin 3 → K)
    (batch : Fin n → ℕ) (m : ℕ) :
    comCenter M z pos batch m = fun c =>
      (∑ i in keptAtoms M z batch m, M.mass (z i) * pos i c) /
        (∑ i in keptAtoms M z batch m, M.mass (z i)) := by
  funext c
  unfold comCenter
  rw [(survivors_group_eq_keptAtoms M z batch m (fun i => M.mass (z i) * pos i c)).1,
    (survivors_group_eq_keptAtoms M z batch m (fun i => M.mass (z i))).1]

/-- Every readout-stage quantity of the forward pass — the scalar readout
with its rescaling and reference correction, the group sizes of the mean
readout, and the dipole center of mass — ranges over exactly the atoms with
atomic number above atom_filter, grouped by their molecule id. -/
theorem forward_eq_keptAtoms {H F R n : ℕ} {K : Type}
    [LinearOrderedField K] (M : GNModel H F R K) (z : Fin n → ℕ)
    (pos : Fin n → Fin 3 → K) (b : Option (Fin n → ℕ)) :
    forward M z pos b =
      (List.range (outDim M z (b.getD fun _ => 0))).map (fun m =>
        if M.dipole then
          M.sqrtFn (∑ c : Fin 3,
            (if M.readout = "mean" then
              (∑ i in keptAtoms M z (b.getD fun _ => 0) m,
                headScalar M (hiddenFinal M z
                  (radiusGraphEdges pos (b.getD fun _ => 0) M.cutoffUpper)
                  (fun e => M.sqrtFn (distSq (pos e.1) (pos e.2)))
                  (fun e => M.rbfFn (M.sqrtFn (distSq (pos e.1) (pos e.2)))) i) *
                (pos i c -
                  (∑ j in keptAtoms M z (b.getD fun _ => 0) m, M.mass (z j) * pos j c) /
                    (∑ j in keptAtoms M z (b.getD fun _ => 0) m, M.mass (z j)))) /
                ((keptAtoms M z (b.getD fun _ => 0) m).card : K)
            else
              ∑ i in keptAtoms M z (b.getD fun _ => 0) m,
                headScalar M (hiddenFinal M z
                  (radiusGraphEdges pos (b.getD fun _ => 0) M.cutoffUpper)
                  (fun e => M.sqrtFn (distSq (pos e.1) (pos e.2)))
                  (fun e => M.rbfFn (M.sqrtFn (distSq (pos e.1) (pos e.2)))) i) *
                (pos i c -
                  (∑ j in keptAtoms M z (b.getD fun _ => 0) m, M.mass (z j) * pos j c) /
                    (∑ j in keptAtoms M z (b.getD fun _ => 0) m, M.mass (z j)))) ^ 2)
        else
          if M.readout = "mean" then
            (∑ i in keptAtoms M z (b.getD fun _ => 0) m,
              atomScalar M z (hiddenFinal M z
                (radiusGraphEdges pos (b.getD fun _ => 0) M.cutoffUpper)
                (fun e => M.sqrtFn (distSq (pos e.1) (pos e.2)))
                (fun e => M.rbfFn (M.sqrtFn (distSq (pos e.1) (pos e.2))))) i) /
              ((keptAtoms M z (b.getD fun _ => 0) m).card : K)
          else
            ∑ i in keptAtoms M z (b.getD fun _ => 0) m,
              atomScalar M z (hiddenFinal M z
                (radiusGraphEdges pos (b.getD fun _ => 0) M.cutoffUpper)
                (fun e => M.sqrtFn (distSq (pos e.1) (pos e.2)))
                (fun e => M.rbfFn (M.sqrtFn (distSq (pos e.1) (pos e.2))))) i) := by
  unfold forward forwardFromGraph
  cases hdip : M.dipole
  · simp only [Bool.false_eq_true, if_false]
    apply List.map_congr_left
    intro m _
    rw [reduceGroup_keptAtoms]
  · simp only [if_true]
    apply List.map_congr_left
    intro m _
    have hdv : ∀ c : Fin 3, ∀ i ∈ keptAtoms M z (b.getD fun _ => 0) m,
        dipoleVec M z pos (b.getD fun _ => 0)
          (hiddenFinal M z
            (radiusGraphEdges pos (b.getD fun _ => 0) M.cutoffUpper)
            (fun e => M.sqrtFn (distSq (pos e.1) (pos e.2)))
            (fun e => M.rbfFn (M.sqrtFn (distSq (pos e.1) (pos e.2))))) i c =
        headScalar M (hiddenFinal M z
          (radiusGraphEdges pos (b.getD fun _ => 0) M.cutoffUpper)
          (fun e => M.sqrtFn (distSq (pos e.1) (pos e.2)))
          (fun e => M.rbfFn (M.sqrtFn (distSq (pos e.1) (pos e.2)))) i) *
        (pos i c -
          (∑ j in keptAtoms M z (b.getD fun _ => 0) m, M.mass (z j) * pos j c) /
            (∑ j in keptAtoms M z (b.getD fun _ => 0) m, M.mass (z j))) := by
      intro c i hi
      have hb : (b.getD fun _ => 0) i = m := by
        have := Finset.mem_filter.mp hi
        exact this.2.2
      unfold dipoleVec
      rw [hb, comCenter_keptAtoms]
    congr 1
    apply Finset.sum_congr rfl
    intro c _
    congr 1
    rw [reduceGroup_keptAtoms]
    by_cases hr : M.readout = "mean"
    · rw [if_pos hr, if_pos hr, Finset.sum_congr rfl (hdv c)]
    · rw [if_neg hr, if_neg hr, Finset.sum_congr rfl (hdv c)]

/-- Squared distances are invariant under an orthogonal map composed with a
translation. -/
theorem distSq_rigid {K : Type} [LinearOrderedField K]
    (Rm : Matrix (Fin 3) (Fin 3) K) (hRm : Rm.transpose * Rm = 1) (tv p q : Fin 3 → K) :
    distSq (Rm.mulVec p + tv) (Rm.mulVec q + tv) = distSq p q := by
  have h1 : ∀ w : Fin 3 → K, ∑ c, w c ^ 2 = Matrix.dotProduct w w := by
    intro w
    simp [Matrix.dotProduct, pow_two]
  have key : ∀ v : Fin 3 → K, ∑ c, Rm.mulVec v c ^ 2 = ∑ c, v c ^ 2 := by
    intro v
    rw [h1 (Rm.mulVec v), h1 v, Matrix.dotProduct_mulVec,
      ← Matrix.mulVec_transpose, Matrix.mulVec_mulVec, hRm, Matrix.one_mulVec]
  unfold distSq
  have hdiff : ∀ c, (Rm.mulVec p + tv) c - (Rm.mulVec q + tv) c
      = Rm.mulVec (p - q) c := by
    intro c
    simp only [Matrix.mulVec_sub, Pi.sub_apply, Pi.add_apply]
    ring
  calc ∑ c, ((Rm.mulVec p + tv) c - (Rm.mulVec q + tv) c) ^ 2
      = ∑ c, Rm.mulVec (p - q) c ^ 2 :=
        Finset.sum_congr rfl (fun c _ => by rw [hdiff])
    _ = ∑ c, (p - q) c ^ 2 := key _
    _ = ∑ c, (p c - q c) ^ 2 := by simp

/-- The neighbor graph is invariant under a rigid motion of all positions. -/
theorem radiusGraphEdges_rigid {n : ℕ} {K : Type} [LinearOrderedField K]
    (Rm : Matrix (Fin 3) (Fin 3) K) (hRm : Rm.transpose * Rm = 1) (tv : Fin 3 → K)
    (pos : Fin n → Fin 3 → K) (batch : Fin n → ℕ) (r : K) :
    radiusGraphEdges (fun i => Rm.mulVec (pos i) + tv) batch r =
      radiusGraphEdges pos batch r := by
  unfold radiusGraphEdges
  apply Finset.filter_congr
  intro e _
  rw [distSq_rigid Rm hRm]

/-- Outside dipole mode the part of the forward pass downstream of the
neighbor graph never reads the positions. -/
theorem forwardFromGraph_pos_indep {H F R n : ℕ} {K : Type}
    [LinearOrderedField K] (M : GNModel H F R K) (hdip : M.dipole = false)
    (z : Fin n → ℕ) (batch : Fin n → ℕ) (edges : Finset (Fin n × Fin n))
    (wt : Fin n × Fin n → K) (pos pos2 : Fin n → Fin 3 → K) :
    forwardFromGraph M z batch edges wt pos =
      forwardFromGraph M z batch edges wt pos2 := by
  unfold forwardFromGraph
  simp [hdip]

/-- Claim C3: with dipole unset, applying a rigid motion (an orthogonal map
composed with a translation) to every position leaves the per-molecule scalar
output unchanged: positions enter only through the neighbor graph and the
pairwise distances, both rigid-motion invariant. -/
theorem rigid_motion_invariance {H F R n : ℕ} {K : Type}
    [LinearOrderedField K] (M : GNModel H F R K) (hdip : M.dipole = false)
    (Rm : Matrix (Fin 3) (Fin 3) K) (tv : Fin 3 → K) (hRm : Rm.transpose * Rm = 1)
    (z : Fin n → ℕ) (pos : Fin n → Fin 3 → K) (b : Option (Fin n → ℕ)) :
    forward M z (fun i => Rm.mulVec (pos i) + tv) b = forward M z pos b := by
  unfold forward
  rw [radiusGraphEdges_rigid Rm hRm]
  have hwt : (fun e : Fin n × Fin n =>
      M.sqrtFn (distSq (Rm.mulVec (pos e.1) + tv) (Rm.mulVec (pos e.2) + tv)))
      = fun e => M.sqrtFn (distSq (pos e.1) (pos e.2)) := by
    funext e
    rw [distSq_rigid Rm hRm]
  rw [hwt]
  exact forwardFromGraph_pos_indep M hdip _ _ _ _ _ _

/-- Witness for C3 over ℚ: the identity rotation with a unit translation on a
one-atom system. -/
theorem rigid_motion_invariance_witness :
    forward (qModel "add" false false false none none none 0) z1
      (fun i => (1 : Matrix (Fin 3) (Fin 3) ℚ).mulVec (pos1 i) + fun _ => 1)
      none =
    forward (qModel "add" false false false none none none 0) z1 pos1 none :=
  rigid_motion_invariance (qModel "add" false false false none none none 0)
    rfl (1 : Matrix (Fin 3) (Fin 3) ℚ) (fun _ => 1)
    (by rw [Matrix.transpose_one, Matrix.one_mul]) z1 pos1 none

/-- CFConv.forward written as one closed expression. -/
theorem cfconv_apply {n H F R : ℕ} {K : Type} [LinearOrderedField K]
    (p : InteractionParams H F R K) (act cutoffFn : K → K)
    (x : Fin n → Fin H → K) (edges : Finset (Fin n × Fin n))
    (wt : Fin n × Fin n → K) (attr : Fin n × Fin n → Fin R → K) (i : Fin n) :
    cfconv p act cutoffFn x edges wt attr i =
      linearMap p.convLin2W p.convLin2B
        (∑ e in edges.filter (fun e => e.2 = i),
          fun j => p.convLin1W.mulVec (x e.1) j *
            (filterNet p act (attr e) j * cutoffFn (wt e))) := rfl

/-- Relabeling atoms maps the neighbor graph edge by edge. -/
theorem mem_radiusGraphEdges_perm {n : ℕ} {K : Type} [LinearOrderedField K]
    (σ : Equiv.Perm (Fin n)) (pos : Fin n → Fin 3 → K) (batch : Fin n → ℕ)
    (r : K) (e : Fin n × Fin n) :
    e ∈ radiusGraphEdges (fun a => pos (σ a)) (fun a => batch (σ a)) r ↔
      (σ e.1, σ e.2) ∈ radiusGraphEdges pos batch r := by
  unfold radiusGraphEdges
  simp only [Finset.mem_filter, Finset.mem_univ, true_and]
  constructor
  · rintro ⟨h1, h2, h3⟩
    exact ⟨fun hc => h1 (σ.injective hc), h2, h3⟩
  · rintro ⟨h1, h2, h3⟩
    exact ⟨fun hc => h1 (congrArg σ hc), h2, h3⟩

/-- Sums of per-edge quantities over the incoming edges of an atom transport
along an atom relabeling. -/
theorem sum_incoming_perm {n : ℕ} {β : Type} [AddCommMonoid β]
    (σ : Equiv.Perm (Fin n)) (s t : Finset (Fin n × Fin n))
    (hmem : ∀ e : Fin n × Fin n, e ∈ s ↔ (σ e.1, σ e.2) ∈ t) (i : Fin n)
    (f : Fin n × Fin n → β) :
    (∑ e in s.filter (fun e => e.2 = i), f (σ e.1, σ e.2)) =
      ∑ e in t.filter (fun e => e.2 = σ i), f e := by
  apply Finset.sum_equiv (Equiv.prodCongr σ σ)
  · intro e
    show e ∈ s.filter (fun e => e.2 = i) ↔
      (σ e.1, σ e.2) ∈ t.filter (fun e => e.2 = σ i)
    simp only [Finset.mem_filter]
    rw [hmem e]
    exact and_congr Iff.rfl ⟨fun h => by rw [h], fun h => σ.injective h⟩
  · intro e _
    rfl

/-- CFConv output transports along an atom relabeling. -/
theorem cfconv_perm {n H F R : ℕ} {K : Type} [LinearOrderedField K]
    (p : InteractionParams H F R K) (act cutoffFn : K → K)
    (σ : Equiv.Perm (Fin n)) (s t : Finset (Fin n × Fin n))
    (hmem : ∀ e : Fin n × Fin n, e ∈ s ↔ (σ e.1, σ e.2) ∈ t)
    (x x' : Fin n → Fin H → K) (hx : ∀ a, x' a = x (σ a))
    (wt : Fin n × Fin n → K) (attr : Fin n × Fin n → Fin R → K) (i : Fin n) :
    cfconv p act cutoffFn x' s (fun e => wt (σ e.1, σ e.2))
      (fun e => attr (σ e.1, σ e.2)) i =
      cfconv p act cutoffFn x t wt attr (σ i) := by
  rw [cfconv_apply, cfconv_apply]
  refine congrArg (linearMap p.convLin2W p.convLin2B) ?_
  calc (∑ e in s.filter (fun e => e.2 = i),
        fun j => p.convLin1W.mulVec (x' e.1) j *
          (filterNet p act (attr (σ e.1, σ e.2)) j * cutoffFn (wt (σ e.1, σ e.2))))
      = ∑ e in s.filter (fun e => e.2 = i),
        fun j => p.convLin1W.mulVec (x (σ e.1)) j *
          (filterNet p act (attr (σ e.1, σ e.2)) j * cutoffFn (wt (σ e.1, σ e.2))) := by
        simp only [hx]
    _ = ∑ e in t.filter (fun e => e.2 = σ i),
        fun j => p.convLin1W.mulVec (x e.1) j *
          (filterNet p act (attr e) j * cutoffFn (wt e)) :=
        sum_incoming_perm σ s t hmem i
          (fun e => fun j => p.convLin1W.mulVec (x e.1) j *
            (filterNet p act (attr e) j * cutoffFn (wt e)))

/-- InteractionBlock output transports along an atom relabeling. -/
theorem interactionBlock_perm {n H F R : ℕ} {K : Type} [LinearOrderedField K]
    (p : InteractionParams H F R K) (act cutoffFn : K → K)
    (σ : Equiv.Perm (Fin n)) (s t : Finset (Fin n × Fin n))
    (hmem : ∀ e : Fin n × Fin n, e ∈ s ↔ (σ e.1, σ e.2) ∈ t)
    (x x' : Fin n → Fin H → K) (hx : ∀ a, x' a = x (σ a))
    (wt : Fin n × Fin n → K) (attr : Fin n × Fin n → Fin R → K) (i : Fin n) :
    interactionBlock p act cutoffFn x' s (fun e => wt (σ e.1, σ e.2))
      (fun e => attr (σ e.1, σ e.2)) i =
      interactionBlock p act cutoffFn x t wt attr (σ i) := by
  unfold interactionBlock
  simp only [cfconv_perm p act cutoffFn σ s t hmem x x' hx wt attr i]

/-- The residual interaction stack transports along an atom relabeling. -/
theorem foldBlocks_perm {n H F R : ℕ} {K : Type} [LinearOrderedField K]
    (act cutoffFn : K → K) (σ : Equiv.Perm (Fin n))
    (s t : Finset (Fin n × Fin n))
    (hmem : ∀ e : Fin n × Fin n, e ∈ s ↔ (σ e.1, σ e.2) ∈ t)
    (wt : Fin n × Fin n → K) (attr : Fin n × Fin n → Fin R → K)
    (bs : List (InteractionParams H F R K)) :
    ∀ h h' : Fin n → Fin H → K, (∀ a, h' a = h (σ a)) → ∀ i,
      (bs.foldl (fun hh p => fun a => hh a +
        interactionBlock p act cutoffFn hh s (fun e => wt (σ e.1, σ e.2))
          (fun e => attr (σ e.1, σ e.2)) a) h') i =
      (bs.foldl (fun hh p => fun a => hh a +
        interactionBlock p act cutoffFn hh t wt attr a) h) (σ i) := by
  induction bs with
  | nil => intro h h' hx i; exact hx i
  | cons p bs ih =>
    intro h h' hx i
    apply ih
    intro a
    simp only [interactionBlock_perm p act cutoffFn σ s t hmem h h' hx wt attr a, hx]

/-- The neighbor embedding transports along an atom relabeling. -/
theorem neighborEmbed_perm {n H F R : ℕ} {K : Type} [LinearOrderedField K]
    (M : GNModel H F R K) (σ : Equiv.Perm (Fin n)) (z : Fin n → ℕ)
    (s t : Finset (Fin n × Fin n))
    (hmem : ∀ e : Fin n × Fin n, e ∈ s ↔ (σ e.1, σ e.2) ∈ t)
    (h h' : Fin n → Fin H → K) (hx : ∀ a, h' a = h (σ a))
    (wt : Fin n × Fin n → K) (attr : Fin n × Fin n → Fin R → K) (i : Fin n) :
    neighborEmbed M (fun a => z (σ a)) h' s (fun e => wt (σ e.1, σ e.2))
      (fun e => attr (σ e.1, σ e.2)) i =
      neighborEmbed M z h t wt attr (σ i) := by
  unfold neighborEmbed
  rw [hx i]
  refine congrArg (M.neCombine (h (σ i))) ?_
  calc (∑ e in s.filter (fun e => e.2 = i),
        M.neMsg (h' e.1) (z (σ e.1)) (attr (σ e.1, σ e.2)) (wt (σ e.1, σ e.2)))
      = ∑ e in s.filter (fun e => e.2 = i),
        M.neMsg (h (σ e.1)) (z (σ e.1)) (attr (σ e.1, σ e.2)) (wt (σ e.1, σ e.2)) := by
        simp only [hx]
    _ = ∑ e in t.filter (fun e => e.2 = σ i),
        M.neMsg (h e.1) (z e.1) (attr e) (wt e) :=
        sum_incoming_perm σ s t hmem i
          (fun e => M.neMsg (h e.1) (z e.1) (attr e) (wt e))

/-- The full hidden state after the interaction stack transports along an
atom relabeling. -/
theorem hiddenFinal_perm {n H F R : ℕ} {K : Type} [LinearOrderedField K]
    (M : GNModel H F R K) (σ : Equiv.Perm (Fin n)) (z : Fin n → ℕ)
    (s t : Finset (Fin n × Fin n))
    (hmem : ∀ e : Fin n × Fin n, e ∈ s ↔ (σ e.1, σ e.2) ∈ t)
    (wt : Fin n × Fin n → K) (attr : Fin n × Fin n → Fin R → K) (i : Fin n) :
    hiddenFinal M (fun a => z (σ a)) s (fun e => wt (σ e.1, σ e.2))
      (fun e => attr (σ e.1, σ e.2)) i =
      hiddenFinal M z t wt attr (σ i) := by
  unfold hiddenFinal
  apply foldBlocks_perm M.act M.cutoffFn σ s t hmem wt attr M.blocks
  intro a
  cases hne : M.useNeighborEmb
  · simp only [Bool.false_eq_true, if_false]
  · simp only [if_true]
    exact neighborEmbed_perm M σ z s t hmem (fun i => M.embedding (z i))
      (fun i => M.embedding (z (σ i))) (fun _ => rfl) wt attr a

/-- Composing a filtered, mapped enumeration of the atoms with a permutation
is a permutation of the unpermuted list. -/
theorem perm_filter_map_list {n : ℕ} {β : Type} (σ : Equiv.Perm (Fin n))
    (q : Fin n → Bool) (f : Fin n → β) :
    List.Perm
      (((List.finRange n).filter (fun i => q (σ i))).map (fun i => f (σ i)))
      (((List.finRange n).filter q).map f) := by
  have h1 : ((List.finRange n).filter (fun i => q (σ i))).map (fun i => f (σ i))
      = (((List.finRange n).filter (fun i => q (σ i))).map σ).map f := by
    rw [List.map_map]
    rfl
  have h2 : ((List.finRange n).filter (fun i => q (σ i))).map σ
      = ((List.finRange n).map σ).filter q :=
    (List.filter_map (⇑σ) (List.finRange n)).symm
  rw [h1, h2]
  exact (σ.map_finRange_perm.filter q).map f

/-- The per-molecule group of surviving atoms, mapped through any function,
is permuted bodily by an atom relabeling. -/
theorem group_perm {n : ℕ} {β : Type} (σ : Equiv.Perm (Fin n))
    (q : Fin n → Bool) (batch : Fin n → ℕ) (m : ℕ) (f : Fin n → β) :
    List.Perm
      ((((List.finRange n).filter (fun i => q (σ i))).filter
        (fun i => batch (σ i) = m)).map (fun i => f (σ i)))
      ((((List.finRange n).filter q).filter (fun i => batch i = m)).map f) := by
  rw [List.filter_filter, List.filter_filter]
  exact perm_filter_map_list σ (fun i => decide (batch i = m) && q i) f

/-- A fold of max over a list of naturals is invariant under permutation. -/
theorem foldr_max_perm : ∀ {l1 l2 : List ℕ}, List.Perm l1 l2 →
    l1.foldr max 0 = l2.foldr max 0 := by
  intro l1 l2 h
  induction h with
  | nil => rfl
  | cons x _ ih => simp only [List.foldr_cons, ih]
  | swap x y l => simp only [List.foldr_cons]; exact max_left_comm y x _
  | trans _ _ ih1 ih2 => rw [ih1, ih2]

/-- The scatter output length is invariant under an atom relabeling. -/
theorem outDim_perm {H F R n : ℕ} {K : Type} [LinearOrderedField K]
    (M : GNModel H F R K) (σ : Equiv.Perm (Fin n)) (z : Fin n → ℕ)
    (batch : Fin n → ℕ) :
    outDim M (fun a => z (σ a)) (fun a => batch (σ a)) = outDim M z batch := by
  unfold outDim
  have hperm : List.Perm
      ((survivors M (fun a => z (σ a))).map (fun a => batch (σ a)))
      ((survivors M z).map batch) := by
    unfold survivors
    exact perm_filter_map_list σ (fun i => decide (M.atom_filter < (z i : ℤ))) batch
  have hlenmap := hperm.length_eq
  rw [List.length_map, List.length_map] at hlenmap
  have hlen : survivors M (fun a => z (σ a)) = [] ↔ survivors M z = [] := by
    rw [← List.length_eq_zero, ← List.length_eq_zero, hlenmap]
  by_cases h : survivors M z = []
  · rw [if_pos h, if_pos (hlen.mpr h)]
  · rw [if_neg h, if_neg (fun hc => h (hlen.mp hc)), foldr_max_perm hperm]

/-- The center of mass is invariant under an atom relabeling. -/
theorem comCenter_perm {H F R n : ℕ} {K : Type} [LinearOrderedField K]
    (M : GNModel H F R K) (σ : Equiv.Perm (Fin n)) (z : Fin n → ℕ)
    (pos : Fin n → Fin 3 → K) (batch : Fin n → ℕ) (m : ℕ) :
    comCenter M (fun a => z (σ a)) (fun a => pos (σ a)) (fun a => batch (σ a)) m
      = comCenter M z pos batch m := by
  funext c
  unfold comCenter survivors
  beta_reduce
  rw [List.Perm.sum_eq (group_perm σ (fun i => decide (M.atom_filter < (z i : ℤ)))
      batch m (fun a => M.mass (z a) * pos a c)),
    List.Perm.sum_eq (group_perm σ (fun i => decide (M.atom_filter < (z i : ℤ)))
      batch m (fun a => M.mass (z a)))]

/-- The per-molecule segment reduction is invariant under an atom
relabeling of survivors, values and molecule ids together. -/
theorem reduceGroup_perm {n : ℕ} {K : Type} [LinearOrderedField K]
    (readout : String) (σ : Equiv.Perm (Fin n)) (q : Fin n → Bool)
    (batch : Fin n → ℕ) (val : Fin n → K) (m : ℕ) :
    reduceGroup readout ((List.finRange n).filter (fun i => q (σ i)))
      (fun a => batch (σ a)) (fun a => val (σ a)) m =
      reduceGroup readout ((List.finRange n).filter q) batch val m := by
  unfold reduceGroup
  have hg := group_perm σ q batch m val
  have hlen := hg.length_eq
  rw [List.length_map, List.length_map] at hlen
  rw [List.Perm.sum_eq hg, hlen]

/-- The forward pass downstream of the graph is invariant under a consistent
atom relabeling of features, numbers, positions and molecule ids. -/
theorem forwardFromGraph_perm {H F R n : ℕ} {K : Type} [LinearOrderedField K]
    (M : GNModel H F R K) (σ : Equiv.Perm (Fin n)) (z : Fin n → ℕ)
    (batch : Fin n → ℕ) (pos : Fin n → Fin 3 → K)
    (s t : Finset (Fin n × Fin n))
    (hmem : ∀ e : Fin n × Fin n, e ∈ s ↔ (σ e.1, σ e.2) ∈ t)
    (wt : Fin n × Fin n → K) :
    forwardFromGraph M (fun a => z (σ a)) (fun a => batch (σ a)) s
      (fun e => wt (σ e.1, σ e.2)) (fun a => pos (σ a)) =
      forwardFromGraph M z batch t wt pos := by
  have hhf : ∀ i, hiddenFinal M (fun a => z (σ a)) s (fun e => wt (σ e.1, σ e.2))
      (fun e => M.rbfFn (wt (σ e.1, σ e.2))) i =
      hiddenFinal M z t wt (fun e => M.rbfFn (wt e)) (σ i) :=
    fun i => hiddenFinal_perm M σ z s t hmem wt (fun e => M.rbfFn (wt e)) i
  unfold forwardFromGraph
  rw [outDim_perm M σ z batch]
  cases hdip : M.dipole
  · simp only [Bool.false_eq_true, if_false]
    apply List.map_congr_left
    intro m _
    have hval : ∀ a, atomScalar M (fun a2 => z (σ a2))
        (hiddenFinal M (fun a2 => z (σ a2)) s (fun e => wt (σ e.1, σ e.2))
          (fun e => M.rbfFn (wt (σ e.1, σ e.2)))) a =
        atomScalar M z (hiddenFinal M z t wt (fun e => M.rbfFn (wt e))) (σ a) := by
      intro a
      unfold atomScalar
      rw [hhf a]
    rw [show atomScalar M (fun a2 => z (σ a2))
        (hiddenFinal M (fun a2 => z (σ a2)) s (fun e => wt (σ e.1, σ e.2))
          (fun e => M.rbfFn (wt (σ e.1, σ e.2)))) =
        fun a => atomScalar M z
          (hiddenFinal M z t wt (fun e => M.rbfFn (wt e))) (σ a) from funext hval]
    exact reduceGroup_perm M.readout σ
      (fun i => decide (M.atom_filter < (z i : ℤ))) batch
      (atomScalar M z (hiddenFinal M z t wt (fun e => M.rbfFn (wt e)))) m
  · simp only [if_true]
    apply List.map_congr_left
    intro m _
    refine congrArg M.sqrtFn ?_
    apply Finset.sum_congr rfl
    intro c _
    refine congrArg (fun x => x ^ 2) ?_
    have hvd : ∀ a, dipoleVec M (fun a2 => z (σ a2)) (fun a2 => pos (σ a2))
        (fun a2 => batch (σ a2))
        (hiddenFinal M (fun a2 => z (σ a2)) s (fun e => wt (σ e.1, σ e.2))
          (fun e => M.rbfFn (wt (σ e.1, σ e.2)))) a c =
        dipoleVec M z pos batch
          (hiddenFinal M z t wt (fun e => M.rbfFn (wt e))) (σ a) c := by
      intro a
      unfold dipoleVec
      rw [hhf a, comCenter_perm M σ z pos batch]
    rw [show (fun i => dipoleVec M (fun a2 => z (σ a2)) (fun a2 => pos (σ a2))
        (fun a2 => batch (σ a2))
        (hiddenFinal M (fun a2 => z (σ a2)) s (fun e => wt (σ e.1, σ e.2))
          (fun e => M.rbfFn (wt (σ e.1, σ e.2)))) i c) =
        fun i => dipoleVec M z pos batch
          (hiddenFinal M z t wt (fun e => M.rbfFn (wt e))) (σ i) c from funext hvd]
    exact reduceGroup_perm M.readout σ
      (fun i => decide (M.atom_filter < (z i : ℤ))) batch
      (fun i => dipoleVec M z pos batch
        (hiddenFinal M z t wt (fun e => M.rbfFn (wt e))) i c) m

/-- Applying the position-tensor relabeling evaluates the argument at the
inverse image of the coordinate. -/
theorem reindexCLE_apply {n : ℕ} (σ : Equiv.Perm (Fin n))
    (p : Fin n → Fin 3 → ℝ) (b : Fin n) :
    reindexCLE σ p b = p (σ.symm b) := rfl

/-- Membership in the survivor list is exactly the atom-filter predicate. -/
theorem mem_survivors {H F R n : ℕ} {K : Type} [LinearOrderedField K]
    (M : GNModel H F R K) (z : Fin n → ℕ) (i : Fin n) :
    i ∈ survivors M z ↔ M.atom_filter < (z i : ℤ) := by
  unfold survivors
  simp [List.mem_filter, List.mem_finRange]

/-- The segment reduction only evaluates its value function on the survivor
list. -/
theorem reduceGroup_congr {n : ℕ} {K : Type} [LinearOrderedField K]
    (readout : String) (surv : List (Fin n)) (batch : Fin n → ℕ)
    (val1 val2 : Fin n → K) (m : ℕ) (h : ∀ i ∈ surv, val1 i = val2 i) :
    reduceGroup readout surv batch val1 m =
      reduceGroup readout surv batch val2 m := by
  unfold reduceGroup
  have hmap : (surv.filter (fun i => batch i = m)).map val1 =
      (surv.filter (fun i => batch i = m)).map val2 :=
    List.map_congr_left (fun i hi => h i (List.mem_of_mem_filter hi))
  rw [hmap]

/-- Downstream of the neighbor graph, the positions of atoms dropped by the
filter are never read: the output agrees for any two position tensors that
agree on the surviving atoms. -/
theorem forwardFromGraph_pos_only_survivors {H F R n : ℕ} {K : Type}
    [LinearOrderedField K] (M : GNModel H F R K) (z : Fin n → ℕ)
    (batch : Fin n → ℕ) (edges : Finset (Fin n × Fin n))
    (wt : Fin n × Fin n → K) (pos pos2 : Fin n → Fin 3 → K)
    (hagree : ∀ i, M.atom_filter < (z i : ℤ) → pos2 i = pos i) :
    forwardFromGraph M z batch edges wt pos2 =
      forwardFromGraph M z batch edges wt pos := by
  unfold forwardFromGraph
  cases hdip : M.dipole
  · simp only [Bool.false_eq_true, if_false]
  · simp only [if_true]
    apply List.map_congr_left
    intro m _
    refine congrArg M.sqrtFn ?_
    apply Finset.sum_congr rfl
    intro c _
    refine congrArg (fun x => x ^ 2) ?_
    have hcom : ∀ mm, comCenter M z pos2 batch mm = comCenter M z pos batch mm := by
      intro mm
      funext cc
      unfold comCenter
      have h1 : ((survivors M z).filter (fun i => batch i = mm)).map
          (fun i => M.mass (z i) * pos2 i cc) =
          ((survivors M z).filter (fun i => batch i = mm)).map
          (fun i => M.mass (z i) * pos i cc) :=
        List.map_congr_left (fun i hi => by
          rw [hagree i ((mem_survivors M z i).mp (List.mem_of_mem_filter hi))])
      rw [h1]
    apply reduceGroup_congr
    intro i hi
    unfold dipoleVec
    rw [hagree i ((mem_survivors M z i).mp hi), hcom]

/-- The gradient of the summed output with respect to the downstream position
of an atom dropped by the filter vanishes: the output does not depend on it. -/
theorem atomForce_dropped_zero {H F R n : ℕ} (M : GNModel H F R ℝ)
    (z batch : Fin n → ℕ) (edges : Finset (Fin n × Fin n))
    (wt : Fin n × Fin n → ℝ) (pos : Fin n → Fin 3 → ℝ) (i : Fin n)
    (hi : ¬M.atom_filter < (z i : ℤ)) :
    atomForce M z batch edges wt pos i = 0 := by
  funext c
  unfold atomForce
  set Fm := fun p : Fin n → Fin 3 → ℝ =>
    (forwardFromGraph M z batch edges wt p).sum with hFm
  by_cases hdiff : DifferentiableAt ℝ Fm pos
  · have hline : HasDerivAt (fun t : ℝ => pos + t • coordDir i c)
        (coordDir i c) 0 := by
      have h0 : HasDerivAt (fun t : ℝ => t • coordDir i c)
          ((1 : ℝ) • coordDir i c) 0 :=
        (hasDerivAt_id (0 : ℝ)).smul_const _
      simpa using h0.const_add pos
    have hf : HasFDerivAt Fm (fderiv ℝ Fm pos)
        ((fun t : ℝ => pos + t • coordDir i c) 0) := by
      simpa using hdiff.hasFDerivAt
    have hcomp := hf.comp_hasDerivAt 0 hline
    have hconst : (Fm ∘ fun t : ℝ => pos + t • coordDir i c)
        = fun _ => Fm pos := by
      funext t
      show Fm (pos + t • coordDir i c) = Fm pos
      refine congrArg List.sum (forwardFromGraph_pos_only_survivors M z batch
        edges wt pos _ ?_)
      intro j hj
      have hji : j ≠ i := fun hc => hi (hc ▸ hj)
      show pos j + t • coordDir i c j = pos j
      unfold coordDir
      rw [Pi.single_eq_of_ne hji, smul_zero, add_zero]
    rw [hconst] at hcomp
    have hz := hcomp.unique (hasDerivAt_const 0 (Fm pos))
    rw [hz, neg_zero]
    simp
  · rw [fderiv_zero_of_not_differentiableAt hdiff]
    simp

/-- The per-atom force transports along an atom relabeling: the force of a
relabeled atom is the force of the original atom it came from. -/
theorem atomForce_perm {H F R n : ℕ} (M : GNModel H F R ℝ)
    (σ : Equiv.Perm (Fin n)) (z batch : Fin n → ℕ) (pos : Fin n → Fin 3 → ℝ)
    (s t : Finset (Fin n × Fin n))
    (hmem : ∀ e : Fin n × Fin n, e ∈ s ↔ (σ e.1, σ e.2) ∈ t)
    (wt : Fin n × Fin n → ℝ) (a : Fin n) :
    atomForce M (fun b => z (σ b)) (fun b => batch (σ b)) s
      (fun e => wt (σ e.1, σ e.2)) (fun b => pos (σ b)) a =
      atomForce M z batch t wt pos (σ a) := by
  funext c
  unfold atomForce
  have hFcomp : (fun p : Fin n → Fin 3 → ℝ =>
      (forwardFromGraph M (fun b => z (σ b)) (fun b => batch (σ b)) s
        (fun e => wt (σ e.1, σ e.2)) p).sum) =
      (fun p : Fin n → Fin 3 → ℝ =>
        (forwardFromGraph M z batch t wt p).sum) ∘ (reindexCLE σ) := by
    funext p
    have h2 : (fun b => reindexCLE σ p (σ b)) = p := by
      funext b
      rw [reindexCLE_apply, Equiv.symm_apply_apply]
    show (forwardFromGraph M (fun b => z (σ b)) (fun b => batch (σ b)) s
        (fun e => wt (σ e.1, σ e.2)) p).sum =
      (forwardFromGraph M z batch t wt (reindexCLE σ p)).sum
    rw [← forwardFromGraph_perm M σ z batch (reindexCLE σ p) s t hmem wt, h2]
  rw [hFcomp, (reindexCLE σ).comp_right_fderiv]
  have hpos : reindexCLE σ (fun b => pos (σ b)) = pos := by
    funext b
    rw [reindexCLE_apply]
    exact congrArg pos (σ.apply_symm_apply b)
  rw [hpos]
  have hsingle : reindexCLE σ (coordDir a c) = coordDir (σ a) c := by
    funext b
    rw [reindexCLE_apply]
    unfold coordDir
    rcases eq_or_ne b (σ a) with hb | hb
    · subst hb
      rw [Equiv.symm_apply_apply, Pi.single_eq_same, Pi.single_eq_same]
    · have hba : σ.symm b ≠ a := fun hc => hb (by rw [← hc, Equiv.apply_symm_apply])
      rw [Pi.single_eq_of_ne hba, Pi.single_eq_of_ne hb]
  simp only [ContinuousLinearMap.comp_apply, ContinuousLinearEquiv.coe_coe, hsingle]

/-- Claim C4: relabeling the atoms by any permutation (atomic numbers,
positions and molecule ids permuted consistently) leaves the per-molecule
scalar outputs unchanged, the per-atom quantities feeding the readout are
permuted by the same permutation, and in the configuration where the call
returns per-atom forces (derivative with dipole, see claim C2) the returned
force rows are the original per-atom forces transported along the
permutation. -/
theorem permutation_invariance {H F R n : ℕ} (M : GNModel H F R ℝ)
    (σ : Equiv.Perm (Fin n)) (z : Fin n → ℕ) (pos : Fin n → Fin 3 → ℝ)
    (batch : Fin n → ℕ) :
    forward M (fun a => z (σ a)) (fun a => pos (σ a))
      (some (fun a => batch (σ a))) = forward M z pos (some batch) ∧
    (∀ i, atomScalar M (fun a => z (σ a))
      (hiddenFinal M (fun a => z (σ a))
        (radiusGraphEdges (fun a => pos (σ a)) (fun a => batch (σ a)) M.cutoffUpper)
        (fun e => M.sqrtFn (distSq (pos (σ e.1)) (pos (σ e.2))))
        (fun e => M.rbfFn (M.sqrtFn (distSq (pos (σ e.1)) (pos (σ e.2)))))) i =
      atomScalar M z
        (hiddenFinal M z (radiusGraphEdges pos batch M.cutoffUpper)
          (fun e => M.sqrtFn (distSq (pos e.1) (pos e.2)))
          (fun e => M.rbfFn (M.sqrtFn (distSq (pos e.1) (pos e.2))))) (σ i)) ∧
    (∀ a, atomForce M (fun b => z (σ b)) (fun b => batch (σ b))
        (radiusGraphEdges (fun b => pos (σ b)) (fun b => batch (σ b)) M.cutoffUpper)
        (fun e => M.sqrtFn (distSq (pos (σ e.1)) (pos (σ e.2))))
        (fun b => pos (σ b)) a =
      atomForce M z batch (radiusGraphEdges pos batch M.cutoffUpper)
        (fun e => M.sqrtFn (distSq (pos e.1) (pos e.2))) pos (σ a)) ∧
    returnedForces M (fun a => z (σ a)) (fun a => pos (σ a))
      (some (fun a => batch (σ a))) =
      (survivors M (fun a => z (σ a))).map (fun a =>
        atomForce M z batch (radiusGraphEdges pos batch M.cutoffUpper)
          (fun e => M.sqrtFn (distSq (pos e.1) (pos e.2))) pos (σ a)) := by
  have hmem := mem_radiusGraphEdges_perm σ pos batch M.cutoffUpper
  refine ⟨?_, ?_, ?_, ?_⟩
  · unfold forward
    simp only [Option.getD_some]
    exact forwardFromGraph_perm M σ z batch pos _ _ hmem
      (fun e => M.sqrtFn (distSq (pos e.1) (pos e.2)))
  · intro i
    unfold atomScalar
    rw [hiddenFinal_perm M σ z _ _ hmem
      (fun e => M.sqrtFn (distSq (pos e.1) (pos e.2)))
      (fun e => M.rbfFn (M.sqrtFn (distSq (pos e.1) (pos e.2)))) i]
  · intro a
    exact atomForce_perm M σ z batch pos _ _ hmem
      (fun e => M.sqrtFn (distSq (pos e.1) (pos e.2))) a
  · unfold returnedForces
    simp only [Option.getD_some]
    apply List.map_congr_left
    intro a _
    exact atomForce_perm M σ z batch pos _ _ hmem
      (fun e => M.sqrtFn (distSq (pos e.1) (pos e.2))) a

/-- Claim C6: the readout-stage quantities of the forward pass — scalar
readout with rescaling and reference correction, mean group sizes, dipole
center of mass — range over exactly the atoms with atomic number above
atom_filter, grouped by molecule id, with the data of each kept atom staying
together under its original index (first conjunct); and the per-atom forces
returned when the gradient call succeeds (derivative with dipole, claim C2)
also range only over the remaining atoms: there is one force row per kept
atom, the gradient with respect to a dropped atom's downstream position is
zero, and the output ignores the downstream positions of dropped atoms
entirely. -/
theorem atom_filter_drops_atoms {H F R n : ℕ} (M : GNModel H F R ℝ)
    (z : Fin n → ℕ) (pos : Fin n → Fin 3 → ℝ) (b : Option (Fin n → ℕ)) :
    (forward M z pos b =
      (List.range (outDim M z (b.getD fun _ => 0))).map (fun m =>
        if M.dipole then
          M.sqrtFn (∑ c : Fin 3,
            (if M.readout = "mean" then
              (∑ i in keptAtoms M z (b.getD fun _ => 0) m,
                headScalar M (hiddenFinal M z
                  (radiusGraphEdges pos (b.getD fun _ => 0) M.cutoffUpper)
                  (fun e => M.sqrtFn (distSq (pos e.1) (pos e.2)))
                  (fun e => M.rbfFn (M.sqrtFn (distSq (pos e.1) (pos e.2)))) i) *
                (pos i c -
                  (∑ j in keptAtoms M z (b.getD fun _ => 0) m, M.mass (z j) * pos j c) /
                    (∑ j in keptAtoms M z (b.getD fun _ => 0) m, M.mass (z j)))) /
                ((keptAtoms M z (b.getD fun _ => 0) m).card : ℝ)
            else
              ∑ i in keptAtoms M z (b.getD fun _ => 0) m,
                headScalar M (hiddenFinal M z
                  (radiusGraphEdges pos (b.getD fun _ => 0) M.cutoffUpper)
                  (fun e => M.sqrtFn (distSq (pos e.1) (pos e.2)))
                  (fun e => M.rbfFn (M.sqrtFn (distSq (pos e.1) (pos e.2)))) i) *
                (pos i c -
                  (∑ j in keptAtoms M z (b.getD fun _ => 0) m, M.mass (z j) * pos j c) /
                    (∑ j in keptAtoms M z (b.getD fun _ => 0) m, M.mass (z j)))) ^ 2)
        else
          if M.readout = "mean" then
            (∑ i in keptAtoms M z (b.getD fun _ => 0) m,
              atomScalar M z (hiddenFinal M z
                (radiusGraphEdges pos (b.getD fun _ => 0) M.cutoffUpper)
                (fun e => M.sqrtFn (distSq (pos e.1) (pos e.2)))
                (fun e => M.rbfFn (M.sqrtFn (distSq (pos e.1) (pos e.2))))) i) /
              ((keptAtoms M z (b.getD fun _ => 0) m).card : ℝ)
          else
            ∑ i in keptAtoms M z (b.getD fun _ => 0) m,
              atomScalar M z (hiddenFinal M z
                (radiusGraphEdges pos (b.getD fun _ => 0) M.cutoffUpper)
                (fun e => M.sqrtFn (distSq (pos e.1) (pos e.2)))
                (fun e => M.rbfFn (M.sqrtFn (distSq (pos e.1) (pos e.2))))) i)) ∧
    (returnedForces M z pos b).length =
      (Finset.univ.filter (fun i => M.atom_filter < (z i : ℤ))).card ∧
    (∀ i, ¬M.atom_filter < (z i : ℤ) →
      atomForce M z (b.getD fun _ => 0)
        (radiusGraphEdges pos (b.getD fun _ => 0) M.cutoffUpper)
        (fun e => M.sqrtFn (distSq (pos e.1) (pos e.2))) pos i = 0) ∧
    (∀ pos2, (∀ i, M.atom_filter < (z i : ℤ) → pos2 i = pos i) →
      forwardFromGraph M z (b.getD fun _ => 0)
        (radiusGraphEdges pos (b.getD fun _ => 0) M.cutoffUpper)
        (fun e => M.sqrtFn (distSq (pos e.1) (pos e.2))) pos2 =
      forwardFromGraph M z (b.getD fun _ => 0)
        (radiusGraphEdges pos (b.getD fun _ => 0) M.cutoffUpper)
        (fun e => M.sqrtFn (distSq (pos e.1) (pos e.2))) pos) := by
  refine ⟨forward_eq_keptAtoms M z pos b, ?_, ?_, ?_⟩
  · unfold returnedForces
    rw [List.length_map]
    unfold survivors
    rw [list_length_filter_card]
    apply congrArg Finset.card
    apply Finset.filter_congr
    intro i _
    simp
  · intro i hi
    exact atomForce_dropped_zero M z (b.getD fun _ => 0)
      (radiusGraphEdges pos (b.getD fun _ => 0) M.cutoffUpper)
      (fun e => M.sqrtFn (distSq (pos e.1) (pos e.2))) pos i hi
  · intro pos2 hagree
    exact forwardFromGraph_pos_only_survivors M z (b.getD fun _ => 0)
      (radiusGraphEdges pos (b.getD fun _ => 0) M.cutoffUpper)
      (fun e => M.sqrtFn (distSq (pos e.1) (pos e.2))) pos pos2 hagree

/-- Witness for C6 at a one-atom system over ℝ whose single atom has atomic
number 0 and is dropped by the default filter: the force row attached to it
would be zero, and changing its downstream position (to constant 1) leaves
the output unchanged. -/
theorem atom_filter_drops_atoms_witness :
    atomForce rModel rz0 ((none : Option (Fin 1 → ℕ)).getD fun _ => 0)
      (radiusGraphEdges rpos0 ((none : Option (Fin 1 → ℕ)).getD fun _ => 0)
        rModel.cutoffUpper)
      (fun e => rModel.sqrtFn (distSq (rpos0 e.1) (rpos0 e.2))) rpos0 0 = 0 ∧
    forwardFromGraph rModel rz0 ((none : Option (Fin 1 → ℕ)).getD fun _ => 0)
      (radiusGraphEdges rpos0 ((none : Option (Fin 1 → ℕ)).getD fun _ => 0)
        rModel.cutoffUpper)
      (fun e => rModel.sqrtFn (distSq (rpos0 e.1) (rpos0 e.2)))
      (fun _ _ => 1) =
    forwardFromGraph rModel rz0 ((none : Option (Fin 1 → ℕ)).getD fun _ => 0)
      (radiusGraphEdges rpos0 ((none : Option (Fin 1 → ℕ)).getD fun _ => 0)
        rModel.cutoffUpper)
      (fun e => rModel.sqrtFn (distSq (rpos0 e.1) (rpos0 e.2))) rpos0 := by
  constructor
  · exact (atom_filter_drops_atoms rModel rz0 rpos0 none).2.2.1 0 (by decide)
  · exact (atom_filter_drops_atoms rModel rz0 rpos0 none).2.2.2 (fun _ _ => 1)
      (fun i hi => absurd hi (by show ¬(0 : ℤ) < ((0 : ℕ) : ℤ); decide))

/-- Witness for C10 over ℚ with mean configured but std missing: the forward
output equals the fully unrescaled output. -/
theorem rescale_iff_both_configured_witness :
    forward (qModel "add" false false false (some 1) none none 0) z1 pos1 none =
      forward { qModel "add" false false false (some 1) none none 0 with
        mean := none, std := none } z1 pos1 none :=
  (rescale_iff_both_configured (qModel "add" false false false (some 1) none none 0)
    z1 pos1 none rfl).1 (Or.inr rfl)

end TorchMDGN
